import Mathlib

set_option maxRecDepth 8192

/-!
# Verification of the RLM (Recursive Language Model) processor

Shallow embedding of `src/utils/rlm_processor.py` (class `RLMProcessor`).
Text blobs are modelled as `List Char`; the sole external capability — the
generative call — is an oracle function from a prompt (system message plus
formatted human message) to either a synthesized text or a `GenerationError`
cause.  Every processing function additionally returns the ordered list of
generative calls it performed, so that "number of generative calls" and
"content of each call" are observable in theorems.

The thread pool of `_process_chunks_parallel` is modelled by computing the
indexed per-chunk results in order; the non-deterministic arrival order of
`as_completed` is modelled, where a claim needs it, by quantifying over an
arbitrary permutation of the indexed results before the `sort` step that the
code performs (line 239 of the source).
-/

namespace RLM

/-- A text blob (Python `str`), modelled as a list of characters. -/
abbrev Text := List Char

/-- The `{` character, written via its code point. -/
def obrace : Char := Char.ofNat 123

/-- The `}` character, written via its code point. -/
def cbrace : Char := Char.ofNat 125

/-- `instruction.replace("{", "{{").replace("}", "}}")` (source lines 104–105).
Since the replaced patterns are single characters and the first replacement
introduces no `}`, the two sequential `str.replace` calls are equivalent to
this single character-wise pass. -/
def escapeBraces : Text → Text
  | [] => []
  | c :: rest =>
    if c = obrace then obrace :: obrace :: escapeBraces rest
    else if c = cbrace then cbrace :: cbrace :: escapeBraces rest
    else c :: escapeBraces rest

/-- Template formatting applied by LangChain's `ChatPromptTemplate` when the
chain is invoked with no variables (`chain.invoke({})`, source line 118):
`{{` renders as `{`, `}}` renders as `}`, and any single (unpaired) brace is a
template-variable reference or syntax error, which raises — modelled as
`none`. -/
def fmtChars : Text → Option Text
  | [] => some []
  | [c] => if c = obrace ∨ c = cbrace then none else some [c]
  | c :: d :: rest =>
    if c = obrace then
      (if d = obrace then (fmtChars rest).map (fun l => obrace :: l) else none)
    else if c = cbrace then
      (if d = cbrace then (fmtChars rest).map (fun l => cbrace :: l) else none)
    else (fmtChars (d :: rest)).map (fun l => c :: l)

/-- A single invocation of the generative capability: the formatted system
message and the formatted human message actually handed to the LLM. -/
structure GenCall where
  system : Text
  human : Text
deriving DecidableEq, Repr

deriving instance DecidableEq for Except

/-- Result of one generative call: the synthesized text, or the cause of a
`GenerationError`. -/
abbrev GenOut := Except Text Text

/-- The Generative Call Adapter, as an oracle.  Deterministic for a given
prompt, which suffices for all claims considered here. -/
abbrev Gen := GenCall → GenOut

/-- Python `sep.join(parts)`. -/
def joinSep (sep : Text) : List Text → Text
  | [] => []
  | [t] => t
  | t :: u :: rest => t ++ sep ++ joinSep sep (u :: rest)

/-- `"\n\n--- Document Separator ---\n\n"` (source line 81). -/
def docSeparator : Text := "\n\n--- Document Separator ---\n\n".data

/-- Default system prompt (source line 101). -/
def defaultSystemPrompt : Text := "You are an expert analyst processing documents.".data

/-- `"\n\n---\n\n"` joining chunk results and batch texts (lines 175, 254). -/
def resultSeparator : Text := "\n\n---\n\n".data

/-- `"\n\n[Document truncated due to recursion limit...]"` (line 145). -/
def truncationMarker : Text := "\n\n[Document truncated due to recursion limit...]".data

/-- Glue of the human template between the instruction and the text
(source lines 109–112). -/
def humanGlue1 : Text := "\n\nDocuments:\n".data

/-- Tail of the human template after the text (source line 114). -/
def humanGlue2 : Text :=
  "\n\nPlease analyze and synthesize the information according to the instruction above.".data

/-- The human message template of `_process_single_pass` (lines 104–115):
instruction and text are brace-escaped, the surrounding glue is literal. -/
def humanTemplate (instruction text : Text) : Text :=
  escapeBraces instruction ++ humanGlue1 ++ escapeBraces text ++ humanGlue2

/-- `prompt_text = system_prompt or "You are an expert analyst..."`
(line 101); Python's `or` falls back on `None` and on the empty string. -/
def resolveSystemPrompt : Option Text → Text
  | none => defaultSystemPrompt
  | some s => if s = [] then defaultSystemPrompt else s

/-- Error text standing for the exception LangChain raises when a message
still contains template-variable syntax after escaping (possible only via the
caller-supplied system prompt, which the source does not escape). -/
def templateErrorMsg : Text := "template variable error".data

/-- `RLMProcessor._process_single_pass` (lines 94–120): build the two-message
prompt, format it, perform exactly one generative call, and return the
adapter's content verbatim. -/
def processSinglePass (gen : Gen) (text instruction : Text) (systemPrompt : Option Text) :
    GenOut × List GenCall :=
  match fmtChars (resolveSystemPrompt systemPrompt), fmtChars (humanTemplate instruction text) with
  | some sysMsg, some humanMsg =>
    let call : GenCall := ⟨sysMsg, humanMsg⟩
    (gen call, [call])
  | _, _ => (Except.error templateErrorMsg, [])

/-- Configuration of `RLMProcessor.__init__` (lines 21–29), with the
constructor's default values. -/
structure RLMConfig where
  chunk_size : Nat := 15000
  chunk_overlap : Nat := 500
  max_recursion_depth : Nat := 2
  batch_size : Nat := 5
  max_workers : Nat := 5
deriving DecidableEq, Repr

/-- `RLMProcessor()` with no arguments: the constructor defaults. -/
def defaultCfg : RLMConfig := {}

/-- The configuration the repository's production caller passes
(`src/agents/analyst.py`, lines 91–98). -/
def analystCfg : RLMConfig :=
  { chunk_size := 20000, chunk_overlap := 500, max_recursion_depth := 2,
    batch_size := 5, max_workers := 5 }

/-- Fuel-indexed body of the Chunker; each iteration strips at least one
character, so fuel `text.length` never runs out. -/
def splitTextFuel (chunkSize chunkOverlap : Nat) : Nat → Text → List Text
  | 0, text => [text]
  | fuel + 1, text =>
    if text.length ≤ chunkSize then [text]
    else
      text.take chunkSize ::
        splitTextFuel chunkSize chunkOverlap fuel
          (text.drop (max 1 (chunkSize - chunkOverlap)))

/-- Modelled from the spec: the Chunker (`RecursiveCharacterTextSplitter`
from the external `langchain_text_splitters` library, missing from `src/`).
Per §4.1 of the spec it splits a text into an ordered sequence of chunks of
at most `chunkSize` characters, consecutive chunks sharing `chunkOverlap`
characters of context, a text no longer than `chunkSize` yielding exactly one
chunk; it is pure, total and deterministic. -/
def splitText (chunkSize chunkOverlap : Nat) (text : Text) : List Text :=
  splitTextFuel chunkSize chunkOverlap text.length text

/-- Python `list[::k]` for `k ≥ 1`: every `k`-th element, starting with the
first. -/
def everyKthFuel (k : Nat) : Nat → List α → List α
  | 0, _ => []
  | fuel + 1, l =>
    match l with
    | [] => []
    | a :: rest => a :: everyKthFuel k fuel (rest.drop (k - 1))

/-- Python `list[::k]` for `k ≥ 1`, with fuel `l.length` (each step strips at
least one element, so the fuel never runs out). -/
def everyKth (k : Nat) (l : List α) : List α := everyKthFuel k l.length l

/-- Safety limit of `_process_recursive` (lines 152–159): if more than 50
chunks, `step = len(chunks) // max_chunks; chunks = chunks[::step][:max_chunks]`. -/
def sampleChunks (chunks : List Text) : List Text :=
  if chunks.length > 50 then (everyKth (chunks.length / 50) chunks).take 50 else chunks

/-- Python `enumerate`, starting at index `n`. -/
def enumIdx (n : Nat) : List α → List (Nat × α)
  | [] => []
  | a :: rest => (n, a) :: enumIdx (n + 1) rest

/-- `"[Chunk " + str(i+1) + "]\n"` (lines 211, 214, 236). -/
def chunkLabel (i : Nat) : Text :=
  "[Chunk ".data ++ (Nat.repr (i + 1)).data ++ "]\n".data

/-- `"[Chunk " + str(i+1) + "]\n[Error: " + str(e) + "]"` (line 214): the
per-chunk placeholder produced when processing chunk `i` raises. -/
def chunkErrorText (i : Nat) (e : Text) : Text :=
  chunkLabel i ++ "[Error: ".data ++ e ++ "]".data

/-- Insert an indexed result into a list sorted by index. -/
def insertByFst (p : Nat × Text) : List (Nat × Text) → List (Nat × Text)
  | [] => [p]
  | q :: rest => if p.1 ≤ q.1 then p :: q :: rest else q :: insertByFst p rest

/-- `chunk_results.sort(key=lambda x: x[0])` (line 239): a stable sort of the
collected `(index, text)` pairs by index. -/
def sortByFst : List (Nat × Text) → List (Nat × Text)
  | [] => []
  | p :: rest => insertByFst p (sortByFst rest)

/-- `"[Batch " + str(k) + "]\n"` (line 269). -/
def batchLabel (k : Nat) : Text :=
  "[Batch ".data ++ (Nat.repr k).data ++ "]\n".data

/-- Head of the batch-synthesis instruction (lines 258–260). -/
def batchInstrA : Text :=
  "Synthesize the following chunk analyses into a concise summary.\n\nOriginal instruction: ".data

/-- Glue before the batch number in the batch-synthesis instruction. -/
def batchInstrB : Text := "\n\nChunk analyses (batch ".data

/-- Glue after the batch number in the batch-synthesis instruction. -/
def batchInstrC : Text := "):\n".data

/-- Tail of the batch-synthesis instruction (line 265). -/
def batchInstrD : Text :=
  "\n\nCreate a concise synthesis focusing on key information and removing redundancy.".data

/-- Fuel-indexed loop of `_synthesize_in_batches`; each iteration strips 10
results, so fuel `l.length` never runs out. -/
def synthesizeInBatchesFuel (gen : Gen) (instruction : Text) (systemPrompt : Option Text) :
    Nat → List Text → Nat → Except Text (List Text) × List GenCall
  | 0, _, _ => (Except.ok [], [])
  | _ + 1, [], _ => (Except.ok [], [])
  | fuel + 1, r0 :: rest0, batchNum =>
    let batch := (r0 :: rest0).take 10
    let batchText := joinSep resultSeparator batch
    let batchInstruction :=
      batchInstrA ++ instruction ++ batchInstrB ++ (Nat.repr batchNum).data ++
        batchInstrC ++ batchText ++ batchInstrD
    match processSinglePass gen batchText batchInstruction systemPrompt with
    | (Except.error e, tr) => (Except.error e, tr)
    | (Except.ok r, tr) =>
      match synthesizeInBatchesFuel gen instruction systemPrompt fuel
          ((r0 :: rest0).drop 10) (batchNum + 1) with
      | (Except.error e, tr2) => (Except.error e, tr ++ tr2)
      | (Except.ok rs, tr2) => (Except.ok ((batchLabel batchNum ++ r) :: rs), tr ++ tr2)

/-- `RLMProcessor._synthesize_in_batches` (lines 242–272): sequentially
synthesize contiguous groups of 10 chunk results; an exception in any batch
call propagates (the source has no per-batch recovery).  Fuel `l.length`
dominates the number of loop iterations. -/
def synthesizeInBatches (gen : Gen) (instruction : Text) (systemPrompt : Option Text)
    (l : List Text) (batchNum : Nat) : Except Text (List Text) × List GenCall :=
  synthesizeInBatchesFuel gen instruction systemPrompt l.length l batchNum

/-- Head of the final synthesis instruction (lines 178–180). -/
def synthInstrA : Text :=
  "Synthesize the following analyses into a coherent response.\n\nOriginal instruction: ".data

/-- Glue before the joined analyses in the final synthesis instruction. -/
def synthInstrB : Text := "\n\nAnalyses:\n".data

/-- Tail of the final synthesis instruction (line 185). -/
def synthInstrC : Text :=
  "\n\nPlease combine the information, removing redundancy and creating a unified analysis.".data

/-- Lines 168–189 of `_process_recursive`: optional batch compression of the
chunk results, then the one final synthesis call. -/
def synthesisStage (gen : Gen) (instruction : Text) (systemPrompt : Option Text)
    (chunkResults : List Text) : GenOut × List GenCall :=
  let batched :=
    if chunkResults.length > 20 then
      synthesizeInBatches gen instruction systemPrompt chunkResults 1
    else (Except.ok chunkResults, [])
  match batched with
  | (Except.error e, tr) => (Except.error e, tr)
  | (Except.ok rs, tr) =>
    let synthesisText := joinSep resultSeparator rs
    let synthesisInstruction :=
      synthInstrA ++ instruction ++ synthInstrB ++ synthesisText ++ synthInstrC
    let step := processSinglePass gen synthesisText synthesisInstruction systemPrompt
    (step.1, tr ++ step.2)

/-- Fan-out of `process_chunk` over a chunk list: pair each outcome with its
index, concatenating the traces (the thread pool of lines 216–236, with the
arrival non-determinism handled at the `sortByFst` step). -/
def mapChunks (procChunk : Nat × Text → (Nat × Text) × List GenCall) :
    List (Nat × Text) → List (Nat × Text) × List GenCall
  | [] => ([], [])
  | p :: rest =>
    let headRes := procChunk p
    let tailRes := mapChunks procChunk rest
    (headRes.1 :: tailRes.1, headRes.2 ++ tailRes.2)

/-- Lines 210–214: label a chunk outcome with `[Chunk i+1]`, converting a
raised error into the `[Error: ...]` placeholder at the chunk boundary. -/
def labelOutcome (i : Nat) : GenOut × List GenCall → (Nat × Text) × List GenCall
  | (Except.ok r, tr) => ((i, chunkLabel i ++ r), tr)
  | (Except.error e, tr) => ((i, chunkErrorText i e), tr)

/-- Fuel-indexed body of `_process_recursive`; the fuel is the remaining
depth budget `max_recursion_depth - depth`, which is 0 exactly on the
depth-exhaustion branch, so the fuel-0 case is that branch verbatim. -/
def processRecursiveFuel (gen : Gen) (cfg : RLMConfig) :
    Nat → Text → Text → Option Text → Nat → GenOut × List GenCall
  | 0, text, instruction, sp, _ =>
    processSinglePass gen (text.take (cfg.chunk_size * 10) ++ truncationMarker)
      instruction sp
  | fuel + 1, text, instruction, sp, depth =>
    if depth ≥ cfg.max_recursion_depth then
      processSinglePass gen (text.take (cfg.chunk_size * 10) ++ truncationMarker)
        instruction sp
    else
      let chunks := sampleChunks (splitText cfg.chunk_size cfg.chunk_overlap text)
      if chunks.length = 1 then
        processSinglePass gen (chunks.headD []) instruction sp
      else
        let step1 := mapChunks (fun p =>
          if p.2.length / 4 > 20000 ∧ depth < cfg.max_recursion_depth then
            labelOutcome p.1
              (processRecursiveFuel gen cfg fuel p.2 instruction sp (depth + 1))
          else
            labelOutcome p.1 (processSinglePass gen p.2 instruction sp)) (enumIdx 0 chunks)
        let chunkResults := (sortByFst step1.1).map Prod.snd
        let step2 := synthesisStage gen instruction sp chunkResults
        (step2.1, step1.2 ++ step2.2)

/-- `RLMProcessor._process_recursive` (lines 122–189): depth-exhaustion
truncation at `depth ≥ max_recursion_depth`; otherwise split, apply the
50-chunk safety limit, single-pass a lone chunk, and otherwise process all
chunks, re-sort by index, and run the synthesis stage.  The fuel
`max_recursion_depth - depth` realises the bounded recursion: it hits 0
exactly when the depth is exhausted. -/
def processRecursive (gen : Gen) (cfg : RLMConfig) (text instruction : Text)
    (sp : Option Text) (depth : Nat) : GenOut × List GenCall :=
  processRecursiveFuel gen cfg (cfg.max_recursion_depth - depth) text instruction sp depth

/-- The body of `process_chunk` (lines 201–214) for a single enumerated
chunk: recurse at `depth + 1` if the chunk estimate still exceeds 20000
tokens and depth remains, single-pass it otherwise; label the outcome. -/
def chunkOutcome (gen : Gen) (cfg : RLMConfig) (instruction : Text) (sp : Option Text)
    (depth : Nat) (i : Nat) (chunk : Text) : (Nat × Text) × List GenCall :=
  if chunk.length / 4 > 20000 ∧ depth < cfg.max_recursion_depth then
    labelOutcome i (processRecursive gen cfg chunk instruction sp (depth + 1))
  else
    labelOutcome i (processSinglePass gen chunk instruction sp)

/-- `process_chunk` mapped over the enumerated chunks (lines 201–236). -/
def processChunksIdx (gen : Gen) (cfg : RLMConfig) (instruction : Text)
    (sp : Option Text) (depth : Nat) (l : List (Nat × Text)) :
    List (Nat × Text) × List GenCall :=
  mapChunks (fun p => chunkOutcome gen cfg instruction sp depth p.1 p.2) l

/-- `RLMProcessor.process_documents` (lines 60–92): empty input returns the
empty string without any call; otherwise join the documents, estimate
`len // 4` tokens, and either single-pass (≤ 100000) or recurse at depth 0. -/
def processDocuments (gen : Gen) (cfg : RLMConfig) (documents : List Text)
    (instruction : Text) (systemPrompt : Option Text) : GenOut × List GenCall :=
  if documents = [] then (Except.ok [], [])
  else
    let combined := joinSep docSeparator documents
    if combined.length / 4 ≤ 100000 then
      processSinglePass gen combined instruction systemPrompt
    else
      processRecursive gen cfg combined instruction systemPrompt 0

/-- The per-chunk stage with the inner recursion branch removed: every chunk
goes straight to a single pass.  Used to state that for small enough
`chunk_size` the recursive branch of `process_chunk` is never taken. -/
def directChunks (gen : Gen) (instruction : Text) (systemPrompt : Option Text)
    (l : List (Nat × Text)) : List (Nat × Text) × List GenCall :=
  mapChunks (fun p => labelOutcome p.1 (processSinglePass gen p.2 instruction systemPrompt)) l

/-- The split-and-recurse body of `_process_recursive` with every chunk
processed in a single pass and no truncation: the recursion-free unfolding
that the processor is provably equal to when `chunk_size ≤ 80000`. -/
def directSplitPath (gen : Gen) (cfg : RLMConfig) (text instruction : Text)
    (systemPrompt : Option Text) : GenOut × List GenCall :=
  let chunks := sampleChunks (splitText cfg.chunk_size cfg.chunk_overlap text)
  if chunks.length = 1 then
    processSinglePass gen (chunks.headD []) instruction systemPrompt
  else
    let step1 := directChunks gen instruction systemPrompt (enumIdx 0 chunks)
    let chunkResults := (sortByFst step1.1).map Prod.snd
    let step2 := synthesisStage gen instruction systemPrompt chunkResults
    (step2.1, step1.2 ++ step2.2)

/-- Worst-case number of generative calls of `processRecursive` as a function
of the remaining depth budget: at most 50 chunks, each worth one level-down
budget, plus at most 5 batch calls plus the final synthesis call. -/
def callBound : Nat → Nat
  | 0 => 1
  | k + 1 => 50 * callBound k + 6

/-- An adapter that always succeeds with the fixed output `"ok"`. -/
def genOk : Gen := fun _ => Except.ok "ok".data

/-- An echoing adapter that fails with cause `cause` exactly on prompts whose
human message contains `marker`, and otherwise echoes the human message. -/
def genFailOn (marker : Char) (cause : Text) : Gen := fun c =>
  if marker ∈ c.human then Except.error cause else Except.ok c.human

/-- A text with no brace characters (all the literal glue of the prompts). -/
def braceFree (t : Text) : Prop := ∀ c ∈ t, c ≠ obrace ∧ c ≠ cbrace

instance : DecidablePred braceFree := fun t =>
  inferInstanceAs (Decidable (∀ c ∈ t, c ≠ obrace ∧ c ≠ cbrace))

/-- The human message the adapter actually receives: the template after
formatting, with the caller's instruction and text restored verbatim. -/
def fullHuman (instruction text : Text) : Text :=
  instruction ++ humanGlue1 ++ text ++ humanGlue2

/-- A test configuration with tiny chunks (`RLMProcessor(chunk_size=4,
chunk_overlap=1)`), used to exercise the splitting pipeline on small concrete
inputs; the hard-coded thresholds (100000, 20000, 50, 20, 10) are unchanged. -/
def tinyCfg : RLMConfig :=
  { chunk_size := 4, chunk_overlap := 1, max_recursion_depth := 2,
    batch_size := 5, max_workers := 5 }

/-- 16-character text whose third chunk (`tinyCfg` splitting) is the only one
containing the marker character `q`. -/
def text16 : Text := List.replicate 7 'a' ++ 'q' :: List.replicate 8 'a'

/-- 361-character text that `tinyCfg` splits into exactly 120 chunks. -/
def text361 : Text := List.replicate 361 'a'

/-- Adapter for the one-failing-chunk scenario: raises a `GenerationError`
with cause `"boom"` exactly on prompts mentioning the marker `q` (with
`text16`, only one chunk's call), echoes the final synthesis prompt so the
per-chunk placeholders are visible in the returned result, and answers
`"ok"` to ordinary chunk prompts. -/
def genC4 : Gen := fun c =>
  if 'q' ∈ c.human then Except.error "boom".data
  else if List.isPrefixOf "Synthesize the following analyses".data c.human then
    Except.ok c.human
  else Except.ok "ok".data

/-- The `chunk_results` local of `_process_recursive` (lines 166 and 238–240):
indexed per-chunk outputs of the enumerated, safety-limited chunks, re-sorted
by index, indices dropped. -/
def chunkResultsOf (gen : Gen) (cfg : RLMConfig) (text instruction : Text)
    (sp : Option Text) (depth : Nat) : List Text :=
  (sortByFst (processChunksIdx gen cfg instruction sp depth
    (enumIdx 0 (sampleChunks (splitText cfg.chunk_size cfg.chunk_overlap text)))).1).map
    Prod.snd


end RLM

namespace RLM

/-! ## Brace escaping and template formatting -/

theorem fmtChars_cons_other {c : Char} (h1 : c ≠ obrace) (h2 : c ≠ cbrace) (l : Text) :
    fmtChars (c :: l) = (fmtChars l).map (fun r => c :: r) := by
  cases l with
  | nil => simp [fmtChars, h1, h2]
  | cons d rest => simp [fmtChars, h1, h2]

theorem fmtChars_obrace (l : Text) :
    fmtChars (obrace :: obrace :: l) = (fmtChars l).map (fun r => obrace :: r) := by
  simp [fmtChars]

theorem fmtChars_cbrace (l : Text) :
    fmtChars (cbrace :: cbrace :: l) = (fmtChars l).map (fun r => cbrace :: r) := by
  have hne : cbrace ≠ obrace := by decide
  simp [fmtChars, hne]

theorem escapeBraces_cons_obrace (l : Text) :
    escapeBraces (obrace :: l) = obrace :: obrace :: escapeBraces l := by
  simp [escapeBraces]

theorem escapeBraces_cons_cbrace (l : Text) :
    escapeBraces (cbrace :: l) = cbrace :: cbrace :: escapeBraces l := by
  have hne : (cbrace = obrace) ↔ False := by decide
  simp [escapeBraces, hne]

theorem escapeBraces_cons_other {c : Char} (h1 : c ≠ obrace) (h2 : c ≠ cbrace) (l : Text) :
    escapeBraces (c :: l) = c :: escapeBraces l := by
  simp [escapeBraces, h1, h2]

theorem fmtChars_escape_append (s t : Text) :
    fmtChars (escapeBraces s ++ t) = (fmtChars t).map (fun r => s ++ r) := by
  induction s with
  | nil =>
    simp [escapeBraces]
  | cons c rest ih =>
    by_cases h1 : c = obrace
    · subst h1
      rw [escapeBraces_cons_obrace, List.cons_append, List.cons_append, fmtChars_obrace,
        ih, Option.map_map]
      rfl
    · by_cases h2 : c = cbrace
      · subst h2
        rw [escapeBraces_cons_cbrace, List.cons_append, List.cons_append, fmtChars_cbrace,
          ih, Option.map_map]
        rfl
      · rw [escapeBraces_cons_other h1 h2, List.cons_append,
          fmtChars_cons_other h1 h2, ih, Option.map_map]
        rfl

theorem fmtChars_braceFree_append {g : Text} (h : braceFree g) (t : Text) :
    fmtChars (g ++ t) = (fmtChars t).map (fun r => g ++ r) := by
  induction g with
  | nil => simp
  | cons c rest ih =>
    have hc := h c (by simp)
    have hrest : braceFree rest := fun x hx => h x (by simp [hx])
    simp only [List.cons_append, fmtChars_cons_other hc.1 hc.2, ih hrest, Option.map_map]
    rfl

theorem fmtChars_escape (s : Text) : fmtChars (escapeBraces s) = some s := by
  have := fmtChars_escape_append s []
  simpa [fmtChars] using this

theorem fmtChars_of_braceFree {g : Text} (h : braceFree g) : fmtChars g = some g := by
  have := fmtChars_braceFree_append h []
  simpa [fmtChars] using this

theorem braceFree_humanGlue1 : braceFree humanGlue1 := by decide

theorem braceFree_humanGlue2 : braceFree humanGlue2 := by decide

theorem fmt_humanTemplate (instruction text : Text) :
    fmtChars (humanTemplate instruction text) = some (fullHuman instruction text) := by
  unfold humanTemplate fullHuman
  rw [List.append_assoc, List.append_assoc, fmtChars_escape_append,
    fmtChars_braceFree_append braceFree_humanGlue1, fmtChars_escape_append,
    fmtChars_of_braceFree braceFree_humanGlue2]
  simp [List.append_assoc]

theorem fmt_resolve_none : fmtChars (resolveSystemPrompt none) = some defaultSystemPrompt := by
  decide

/-- Unfolding of `_process_single_pass` for any system prompt that survives
template formatting: exactly one generative call, whose human message is the
instruction and the text verbatim (escaping reversed by formatting), and the
adapter's answer returned unmodified. -/
theorem processSinglePass_eq (gen : Gen) (text instruction : Text) (sp : Option Text)
    {sysMsg : Text} (h : fmtChars (resolveSystemPrompt sp) = some sysMsg) :
    processSinglePass gen text instruction sp =
      (gen ⟨sysMsg, fullHuman instruction text⟩, [⟨sysMsg, fullHuman instruction text⟩]) := by
  unfold processSinglePass
  rw [h, fmt_humanTemplate]

theorem processSinglePass_trace_le (gen : Gen) (text instruction : Text) (sp : Option Text) :
    (processSinglePass gen text instruction sp).2.length ≤ 1 := by
  unfold processSinglePass
  rcases h1 : fmtChars (resolveSystemPrompt sp) with _ | s <;>
    rcases h2 : fmtChars (humanTemplate instruction text) with _ | u <;> simp

end RLM

namespace RLM

/-! ## Chunker and safety down-sampling -/

theorem splitTextFuel_chunk_le (chunkSize chunkOverlap : Nat) :
    ∀ (fuel : Nat) (text : Text), text.length ≤ fuel →
      ∀ c ∈ splitTextFuel chunkSize chunkOverlap fuel text, c.length ≤ chunkSize := by
  intro fuel
  induction fuel with
  | zero =>
    intro text hf c hc
    rw [splitTextFuel, List.mem_singleton] at hc
    subst hc
    omega
  | succ f ih =>
    intro text hf c hc
    rw [splitTextFuel] at hc
    by_cases hle : text.length ≤ chunkSize
    · rw [if_pos hle, List.mem_singleton] at hc
      subst hc
      exact hle
    · rw [if_neg hle, List.mem_cons] at hc
      rcases hc with hc | hc
      · simp [hc, List.length_take]
      · exact ih _ (by simp only [List.length_drop]; omega) c hc

theorem splitText_chunk_le (chunkSize chunkOverlap : Nat) (text : Text) :
    ∀ c ∈ splitText chunkSize chunkOverlap text, c.length ≤ chunkSize :=
  splitTextFuel_chunk_le chunkSize chunkOverlap text.length text le_rfl

theorem splitText_of_le {chunkSize chunkOverlap : Nat} {text : Text}
    (h : text.length ≤ chunkSize) : splitText chunkSize chunkOverlap text = [text] := by
  unfold splitText
  cases hf : text.length with
  | zero => rfl
  | succ n =>
    rw [splitTextFuel, if_pos h]

theorem everyKthFuel_subset (k : Nat) :
    ∀ (fuel : Nat) (l : List α), everyKthFuel k fuel l ⊆ l := by
  intro fuel
  induction fuel with
  | zero =>
    intro l x hx
    rw [everyKthFuel] at hx
    simp at hx
  | succ f ih =>
    intro l x hx
    cases l with
    | nil => simp [everyKthFuel] at hx
    | cons a rest =>
      rw [everyKthFuel] at hx
      rcases List.mem_cons.1 hx with hx | hx
      · simp [hx]
      · exact List.mem_cons_of_mem a (List.drop_subset _ _ (ih _ hx))

theorem everyKth_subset (k : Nat) (l : List α) : everyKth k l ⊆ l :=
  everyKthFuel_subset k l.length l

theorem sampleChunks_subset (l : List Text) : sampleChunks l ⊆ l := by
  unfold sampleChunks
  split
  · exact fun x hx => everyKth_subset _ _ (List.take_subset _ _ hx)
  · exact fun x hx => hx

theorem sampleChunks_length_le (l : List Text) : (sampleChunks l).length ≤ 50 := by
  unfold sampleChunks
  split
  · simp [List.length_take]
  · omega

theorem everyKthFuel_length {k : Nat} (hk : 1 ≤ k) :
    ∀ (fuel : Nat) (l : List α), l.length ≤ fuel →
      (everyKthFuel k fuel l).length = (l.length + k - 1) / k := by
  intro fuel
  induction fuel with
  | zero =>
    intro l hf
    have hnil : l = [] := List.length_eq_zero.1 (by omega)
    subst hnil
    rw [everyKthFuel]
    simp only [List.length_nil, Nat.zero_add]
    exact (Nat.div_eq_of_lt (by omega)).symm
  | succ f ih =>
    intro l hf
    cases l with
    | nil =>
      rw [everyKthFuel]
      simp only [List.length_nil, Nat.zero_add]
      exact (Nat.div_eq_of_lt (by omega)).symm
    | cons a rest =>
      rw [everyKthFuel]
      simp only [List.length_cons] at hf ⊢
      rw [ih (rest.drop (k - 1)) (by simp only [List.length_drop]; omega)]
      simp only [List.length_drop]
      have hr : rest.length + 1 + k - 1 = rest.length + k := by omega
      rw [hr, Nat.add_div_right _ (by omega)]
      congr 1
      by_cases hc : k - 1 ≤ rest.length
      · congr 1
        omega
      · have h1 : rest.length - (k - 1) = 0 := by omega
        rw [h1]
        rw [Nat.div_eq_of_lt (by omega), Nat.div_eq_of_lt (by omega)]

theorem everyKth_length {k : Nat} (hk : 1 ≤ k) (l : List α) :
    (everyKth k l).length = (l.length + k - 1) / k :=
  everyKthFuel_length hk l.length l le_rfl

theorem everyKthFuel_getElem? {k : Nat} (hk : 1 ≤ k) :
    ∀ (fuel : Nat) (l : List α) (i : Nat), l.length ≤ fuel →
      (everyKthFuel k fuel l)[i]? = l[i * k]? := by
  intro fuel
  induction fuel with
  | zero =>
    intro l i hf
    have hnil : l = [] := List.length_eq_zero.1 (by omega)
    subst hnil
    rw [everyKthFuel]
    simp
  | succ f ih =>
    intro l i hf
    cases l with
    | nil =>
      rw [everyKthFuel]
      simp
    | cons a rest =>
      simp only [List.length_cons] at hf
      rw [everyKthFuel]
      cases i with
      | zero => simp
      | succ j =>
        have hsm : (j + 1) * k = j * k + k := by ring
        have hidx : (j + 1) * k = (k - 1 + j * k) + 1 := by omega
        rw [List.getElem?_cons_succ,
          ih (rest.drop (k - 1)) j (by simp only [List.length_drop]; omega),
          List.getElem?_drop, hidx, List.getElem?_cons_succ]

theorem everyKth_getElem? {k : Nat} (hk : 1 ≤ k) (l : List α) (i : Nat) :
    (everyKth k l)[i]? = l[i * k]? :=
  everyKthFuel_getElem? hk l.length l i le_rfl

theorem sampleChunks_length_eq {l : List Text} (h : l.length > 50) :
    (sampleChunks l).length = 50 := by
  have hstep : 1 ≤ l.length / 50 := (Nat.one_le_div_iff (by omega)).2 (by omega)
  have hmul : l.length / 50 * 50 ≤ l.length := Nat.div_mul_le_self _ _
  unfold sampleChunks
  rw [if_pos h, List.length_take, everyKth_length hstep]
  have h50 : 50 ≤ (l.length + l.length / 50 - 1) / (l.length / 50) := by
    rw [Nat.le_div_iff_mul_le (by omega : 0 < l.length / 50)]
    omega
  omega

theorem sampleChunks_getElem? {l : List Text} (h : l.length > 50) {i : Nat} (hi : i < 50) :
    (sampleChunks l)[i]? = l[i * (l.length / 50)]? := by
  have hstep : 1 ≤ l.length / 50 := (Nat.one_le_div_iff (by omega)).2 (by omega)
  unfold sampleChunks
  rw [if_pos h, List.getElem?_take, if_pos hi, everyKth_getElem? hstep]

end RLM

namespace RLM

/-! ## Enumeration, per-chunk results, and re-sorting by index -/

theorem enumIdx_length (n : Nat) (l : List α) : (enumIdx n l).length = l.length := by
  induction l generalizing n with
  | nil => rfl
  | cons a rest ih => simp [enumIdx, ih]

theorem enumIdx_getElem? (n : Nat) (l : List α) (i : Nat) :
    (enumIdx n l)[i]? = l[i]?.map (fun a => (n + i, a)) := by
  induction l generalizing n i with
  | nil => simp [enumIdx]
  | cons a rest ih =>
    cases i with
    | zero => simp [enumIdx]
    | succ j =>
      simp only [enumIdx, List.getElem?_cons_succ, ih]
      have : n + 1 + j = n + (j + 1) := by omega
      rw [this]

theorem enumIdx_fst_ge (n : Nat) (l : List α) : ∀ p ∈ enumIdx n l, n ≤ p.1 := by
  induction l generalizing n with
  | nil => simp [enumIdx]
  | cons a rest ih =>
    intro p hp
    rw [enumIdx, List.mem_cons] at hp
    rcases hp with hp | hp
    · simp [hp]
    · exact le_trans (by omega) (ih (n + 1) p hp)

theorem enumIdx_fst_lt (n : Nat) (l : List α) :
    List.Pairwise (fun p q : Nat × α => p.1 < q.1) (enumIdx n l) := by
  induction l generalizing n with
  | nil => exact List.Pairwise.nil
  | cons a rest ih =>
    rw [enumIdx]
    exact List.Pairwise.cons
      (fun q hq => lt_of_lt_of_le (by omega) (enumIdx_fst_ge (n + 1) rest q hq)) (ih (n + 1))


theorem labelOutcome_fst (i : Nat) (o : GenOut × List GenCall) :
    (labelOutcome i o).1.1 = i := by
  rcases o with ⟨res, tr⟩
  cases res <;> rfl

theorem labelOutcome_snd (i : Nat) (o : GenOut × List GenCall) :
    (labelOutcome i o).2 = o.2 := by
  rcases o with ⟨res, tr⟩
  cases res <;> rfl

theorem chunkErrorText_eq (i : Nat) (e : Text) :
    chunkErrorText i e = chunkLabel i ++ ("[Error: ".data ++ e ++ "]".data) := by
  simp [chunkErrorText, List.append_assoc]

theorem labelOutcome_label (i : Nat) (o : GenOut × List GenCall) :
    ∃ suffix, (labelOutcome i o).1.2 = chunkLabel i ++ suffix := by
  rcases o with ⟨res, tr⟩
  cases res with
  | ok r => exact ⟨r, rfl⟩
  | error e => exact ⟨_, chunkErrorText_eq _ _⟩

theorem processChunksIdx_nil (gen : Gen) (cfg : RLMConfig) (instruction : Text)
    (sp : Option Text) (depth : Nat) :
    processChunksIdx gen cfg instruction sp depth [] = ([], []) := rfl

theorem processChunksIdx_cons (gen : Gen) (cfg : RLMConfig) (instruction : Text)
    (sp : Option Text) (depth : Nat) (i : Nat) (chunk : Text) (rest : List (Nat × Text)) :
    processChunksIdx gen cfg instruction sp depth ((i, chunk) :: rest) =
      ((chunkOutcome gen cfg instruction sp depth i chunk).1 ::
          (processChunksIdx gen cfg instruction sp depth rest).1,
        (chunkOutcome gen cfg instruction sp depth i chunk).2 ++
          (processChunksIdx gen cfg instruction sp depth rest).2) := rfl

theorem chunkOutcome_fst (gen : Gen) (cfg : RLMConfig) (instruction : Text)
    (sp : Option Text) (depth : Nat) (i : Nat) (chunk : Text) :
    (chunkOutcome gen cfg instruction sp depth i chunk).1.1 = i := by
  unfold chunkOutcome
  split <;> exact labelOutcome_fst _ _

theorem chunkOutcome_label (gen : Gen) (cfg : RLMConfig) (instruction : Text)
    (sp : Option Text) (depth : Nat) (i : Nat) (chunk : Text) :
    ∃ suffix, (chunkOutcome gen cfg instruction sp depth i chunk).1.2 =
      chunkLabel i ++ suffix := by
  unfold chunkOutcome
  split <;> exact labelOutcome_label _ _

theorem processChunksIdx_getElem? (gen : Gen) (cfg : RLMConfig) (instruction : Text)
    (sp : Option Text) (depth : Nat) (l : List (Nat × Text)) (j : Nat) (hj : j < l.length) :
    ∃ chunk suffix, l[j]? = some ((l.map Prod.fst).getD j 0, chunk) ∧
      (processChunksIdx gen cfg instruction sp depth l).1[j]? =
        some ((l.map Prod.fst).getD j 0, chunkLabel ((l.map Prod.fst).getD j 0) ++ suffix) := by
  induction l generalizing j with
  | nil => simp at hj
  | cons p rest ih =>
    obtain ⟨i, chunk⟩ := p
    cases j with
    | zero =>
      obtain ⟨suffix, hsuf⟩ := chunkOutcome_label gen cfg instruction sp depth i chunk
      have hfst := chunkOutcome_fst gen cfg instruction sp depth i chunk
      refine ⟨chunk, suffix, by simp, ?_⟩
      rw [processChunksIdx_cons]
      simp only [List.getElem?_cons_zero, List.map_cons, List.getD_cons_zero]
      exact congrArg some (Prod.ext hfst hsuf)
    | succ j' =>
      have hj' : j' < rest.length := by simpa using hj
      obtain ⟨chunk', suffix, h1, h2⟩ := ih j' hj'
      refine ⟨chunk', suffix, by simpa using h1, ?_⟩
      rw [processChunksIdx_cons]
      simpa using h2

theorem processChunksIdx_map_fst (gen : Gen) (cfg : RLMConfig) (instruction : Text)
    (sp : Option Text) (depth : Nat) (l : List (Nat × Text)) :
    (processChunksIdx gen cfg instruction sp depth l).1.map Prod.fst = l.map Prod.fst := by
  induction l with
  | nil => rw [processChunksIdx_nil]
  | cons p rest ih =>
    obtain ⟨i, chunk⟩ := p
    rw [processChunksIdx_cons]
    simp [chunkOutcome_fst, ih]

theorem processChunksIdx_length (gen : Gen) (cfg : RLMConfig) (instruction : Text)
    (sp : Option Text) (depth : Nat) (l : List (Nat × Text)) :
    (processChunksIdx gen cfg instruction sp depth l).1.length = l.length := by
  have := congrArg List.length (processChunksIdx_map_fst gen cfg instruction sp depth l)
  simpa using this

theorem insertByFst_perm (p : Nat × Text) (l : List (Nat × Text)) :
    (insertByFst p l).Perm (p :: l) := by
  induction l with
  | nil => rfl
  | cons q rest ih =>
    rw [insertByFst]
    split
    · rfl
    · exact (List.Perm.cons q ih).trans (List.Perm.swap p q rest)

theorem sortByFst_perm (l : List (Nat × Text)) : (sortByFst l).Perm l := by
  induction l with
  | nil => rfl
  | cons p rest ih =>
    rw [sortByFst]
    exact (insertByFst_perm p (sortByFst rest)).trans (List.Perm.cons p ih)

theorem insertByFst_sorted (p : Nat × Text) {l : List (Nat × Text)}
    (h : List.Pairwise (fun a b => a.1 ≤ b.1) l) :
    List.Pairwise (fun a b => a.1 ≤ b.1) (insertByFst p l) := by
  induction l with
  | nil => simp [insertByFst]
  | cons q rest ih =>
    have hq : ∀ x ∈ rest, q.1 ≤ x.1 := (List.pairwise_cons.1 h).1
    have hrest : List.Pairwise (fun a b => a.1 ≤ b.1) rest := (List.pairwise_cons.1 h).2
    rw [insertByFst]
    by_cases hpq : p.1 ≤ q.1
    · rw [if_pos hpq]
      refine List.Pairwise.cons ?_ h
      intro x hx
      rcases List.mem_cons.1 hx with hx | hx
      · rw [hx]; exact hpq
      · exact le_trans hpq (hq x hx)
    · rw [if_neg hpq]
      refine List.Pairwise.cons ?_ (ih hrest)
      intro x hx
      rcases List.mem_cons.1 ((insertByFst_perm p rest).mem_iff.1 hx) with hx | hx
      · rw [hx]; omega
      · exact hq x hx

theorem sortByFst_sorted (l : List (Nat × Text)) :
    List.Pairwise (fun a b => a.1 ≤ b.1) (sortByFst l) := by
  induction l with
  | nil => exact List.Pairwise.nil
  | cons p rest ih => exact insertByFst_sorted p ih

/-- Sorting any permutation of a strictly index-sorted reference list by index
recovers the reference list: the re-sort step makes the collected results
independent of completion order. -/
theorem sortByFst_eq_of_perm {l ref : List (Nat × Text)} (hperm : l.Perm ref)
    (href : List.Pairwise (fun a b => a.1 < b.1) ref) : sortByFst l = ref := by
  have h1 : (sortByFst l).Perm ref := (sortByFst_perm l).trans hperm
  have hnd : (ref.map Prod.fst).Nodup :=
    List.pairwise_map.2 (href.imp fun h => Nat.ne_of_lt h)
  have hnd' : ((sortByFst l).map Prod.fst).Nodup := ((h1.map Prod.fst).nodup_iff).2 hnd
  have hne : List.Pairwise (fun a b : Nat × Text => a.1 ≠ b.1) (sortByFst l) :=
    List.pairwise_map.1 hnd'
  have hlt : List.Pairwise (fun a b : Nat × Text => a.1 < b.1) (sortByFst l) :=
    ((sortByFst_sorted l).and hne).imp fun h => lt_of_le_of_ne h.1 h.2
  haveI : IsAntisymm (Nat × Text) (fun a b => a.1 < b.1) :=
    ⟨fun a b h1 h2 => absurd (h1.trans h2) (lt_irrefl _)⟩
  exact List.eq_of_perm_of_sorted h1 hlt href

end RLM

namespace RLM

/-! ## Unfolding equations and generative-call bounds -/

theorem processRecursive_exhausted (gen : Gen) (cfg : RLMConfig) (text instruction : Text)
    (sp : Option Text) {depth : Nat} (h : depth ≥ cfg.max_recursion_depth) :
    processRecursive gen cfg text instruction sp depth =
      processSinglePass gen (text.take (cfg.chunk_size * 10) ++ truncationMarker)
        instruction sp := by
  unfold processRecursive
  rw [Nat.sub_eq_zero_of_le h]
  rfl

theorem processRecursive_split (gen : Gen) (cfg : RLMConfig) (text instruction : Text)
    (sp : Option Text) {depth : Nat} (h : depth < cfg.max_recursion_depth) :
    processRecursive gen cfg text instruction sp depth =
      (if (sampleChunks (splitText cfg.chunk_size cfg.chunk_overlap text)).length = 1 then
        processSinglePass gen
          ((sampleChunks (splitText cfg.chunk_size cfg.chunk_overlap text)).headD [])
          instruction sp
      else
        ((synthesisStage gen instruction sp
            ((sortByFst (processChunksIdx gen cfg instruction sp depth
              (enumIdx 0 (sampleChunks (splitText cfg.chunk_size cfg.chunk_overlap text)))).1).map
              Prod.snd)).1,
          (processChunksIdx gen cfg instruction sp depth
              (enumIdx 0 (sampleChunks (splitText cfg.chunk_size cfg.chunk_overlap text)))).2 ++
            (synthesisStage gen instruction sp
              ((sortByFst (processChunksIdx gen cfg instruction sp depth
                (enumIdx 0 (sampleChunks (splitText cfg.chunk_size cfg.chunk_overlap text)))).1).map
                Prod.snd)).2)) := by
  unfold processRecursive
  have hf : cfg.max_recursion_depth - depth = (cfg.max_recursion_depth - (depth + 1)) + 1 := by
    omega
  rw [hf, processRecursiveFuel, if_neg (by omega : ¬ depth ≥ cfg.max_recursion_depth)]
  rfl

theorem synthesizeInBatchesFuel_trace_le (gen : Gen) (instruction : Text)
    (sp : Option Text) :
    ∀ (fuel : Nat) (l : List Text) (n : Nat), l.length ≤ fuel →
      (synthesizeInBatchesFuel gen instruction sp fuel l n).2.length ≤
        (l.length + 9) / 10 := by
  intro fuel
  induction fuel with
  | zero =>
    intro l n hf
    have hnil : l = [] := List.length_eq_zero.1 (by omega)
    subst hnil
    simp [synthesizeInBatchesFuel]
  | succ f ih =>
    intro l n hf
    cases l with
    | nil => simp [synthesizeInBatchesFuel]
    | cons r0 rest0 =>
      simp only [List.length_cons] at hf
      rw [synthesizeInBatchesFuel]
      have htr := processSinglePass_trace_le gen
        (joinSep resultSeparator ((r0 :: rest0).take 10))
        (batchInstrA ++ instruction ++ batchInstrB ++ (Nat.repr n).data ++ batchInstrC ++
          joinSep resultSeparator ((r0 :: rest0).take 10) ++ batchInstrD) sp
      rcases h1 : processSinglePass gen
          (joinSep resultSeparator ((r0 :: rest0).take 10))
          (batchInstrA ++ instruction ++ batchInstrB ++ (Nat.repr n).data ++ batchInstrC ++
            joinSep resultSeparator ((r0 :: rest0).take 10) ++ batchInstrD) sp with ⟨res1, tr⟩
      rw [h1] at htr
      simp only at htr
      cases res1 with
      | error e =>
        simp only [List.length_cons]
        omega
      | ok r =>
        have hih := ih ((r0 :: rest0).drop 10) (n + 1)
          (by simp only [List.length_drop, List.length_cons]; omega)
        rcases h2 : synthesizeInBatchesFuel gen instruction sp f
            ((r0 :: rest0).drop 10) (n + 1) with ⟨res2, tr2⟩
        rw [h2] at hih
        simp only [List.length_drop, List.length_cons] at hih
        cases res2 with
        | error e =>
          simp only [List.length_append, List.length_cons]
          omega
        | ok rs =>
          simp only [List.length_append, List.length_cons]
          omega

theorem synthesizeInBatches_trace_le (gen : Gen) (instruction : Text) (sp : Option Text)
    (l : List Text) (n : Nat) :
    (synthesizeInBatches gen instruction sp l n).2.length ≤ (l.length + 9) / 10 :=
  synthesizeInBatchesFuel_trace_le gen instruction sp l.length l n le_rfl
end RLM

namespace RLM

theorem synthesisStage_trace_le (gen : Gen) (instruction : Text) (sp : Option Text)
    (crs : List Text) (hlen : crs.length ≤ 50) :
    (synthesisStage gen instruction sp crs).2.length ≤ 6 := by
  unfold synthesisStage
  by_cases hb : crs.length > 20
  · rw [if_pos hb]
    rcases hrec : synthesizeInBatches gen instruction sp crs 1 with ⟨res, tr⟩
    have htr : tr.length ≤ 5 := by
      have := synthesizeInBatches_trace_le gen instruction sp crs 1
      rw [hrec] at this
      simp only at this
      omega
    cases res with
    | error e => simp only; omega
    | ok rs =>
      have hstep := processSinglePass_trace_le gen (joinSep resultSeparator rs)
        (synthInstrA ++ instruction ++ synthInstrB ++ joinSep resultSeparator rs ++
          synthInstrC) sp
      simp only [List.length_append]
      omega
  · rw [if_neg hb]
    have hstep := processSinglePass_trace_le gen (joinSep resultSeparator crs)
      (synthInstrA ++ instruction ++ synthInstrB ++ joinSep resultSeparator crs ++
        synthInstrC) sp
    simp only [List.nil_append]
    omega

theorem callBound_pos (k : Nat) : 1 ≤ callBound k := by
  cases k with
  | zero => simp [callBound]
  | succ j =>
    have := Nat.zero_le (callBound j)
    simp only [callBound]
    omega

theorem callBound_succ_ge (k : Nat) : callBound k ≤ callBound (k + 1) := by
  have h := callBound_pos k
  simp only [callBound]
  omega

theorem chunkOutcome_trace_le (gen : Gen) (cfg : RLMConfig) (instruction : Text)
    (sp : Option Text) (depth : Nat) (i : Nat) (chunk : Text) (B : Nat) (hB : 1 ≤ B)
    (hrec : (processRecursive gen cfg chunk instruction sp (depth + 1)).2.length ≤ B) :
    (chunkOutcome gen cfg instruction sp depth i chunk).2.length ≤ B := by
  unfold chunkOutcome
  split
  · rw [labelOutcome_snd]
    exact hrec
  · rw [labelOutcome_snd]
    exact le_trans (processSinglePass_trace_le gen chunk instruction sp) hB

theorem processChunksIdx_trace_le (gen : Gen) (cfg : RLMConfig) (instruction : Text)
    (sp : Option Text) (depth : Nat) (B : Nat) (hB : 1 ≤ B)
    (hrec : ∀ chunk : Text,
      (processRecursive gen cfg chunk instruction sp (depth + 1)).2.length ≤ B)
    (l : List (Nat × Text)) :
    (processChunksIdx gen cfg instruction sp depth l).2.length ≤ l.length * B := by
  induction l with
  | nil => simp [processChunksIdx_nil]
  | cons p rest ih =>
    obtain ⟨i, chunk⟩ := p
    rw [processChunksIdx_cons]
    have hhead := chunkOutcome_trace_le gen cfg instruction sp depth i chunk B hB (hrec chunk)
    have hmul : (rest.length + 1) * B = rest.length * B + B := Nat.succ_mul _ _
    simp only [List.length_append, List.length_cons]
    omega

/-- Bounded number of generative calls: the trace of `processRecursive` is
bounded by `callBound` of the remaining depth budget. -/
theorem processRecursive_trace_bound (k : Nat) :
    ∀ (gen : Gen) (cfg : RLMConfig) (text instruction : Text) (sp : Option Text)
      (depth : Nat), cfg.max_recursion_depth - depth ≤ k →
      (processRecursive gen cfg text instruction sp depth).2.length ≤
        callBound (cfg.max_recursion_depth - depth) := by
  induction k with
  | zero =>
    intro gen cfg text instruction sp depth hk
    have hd : depth ≥ cfg.max_recursion_depth := by omega
    rw [processRecursive_exhausted gen cfg text instruction sp hd]
    have h0 : cfg.max_recursion_depth - depth = 0 := by omega
    rw [h0]
    simpa [callBound] using
      processSinglePass_trace_le gen (text.take (cfg.chunk_size * 10) ++ truncationMarker)
        instruction sp
  | succ k ih =>
    intro gen cfg text instruction sp depth hk
    by_cases hd : depth ≥ cfg.max_recursion_depth
    · rw [processRecursive_exhausted gen cfg text instruction sp hd]
      have h0 : cfg.max_recursion_depth - depth = 0 := by omega
      rw [h0]
      simpa [callBound] using
        processSinglePass_trace_le gen (text.take (cfg.chunk_size * 10) ++ truncationMarker)
          instruction sp
    · push_neg at hd
      rw [processRecursive_split gen cfg text instruction sp hd]
      have hpos := callBound_pos (cfg.max_recursion_depth - depth)
      split
      · exact le_trans
          (processSinglePass_trace_le gen _ instruction sp) hpos
      · have hrec : ∀ chunk : Text,
            (processRecursive gen cfg chunk instruction sp (depth + 1)).2.length ≤
              callBound (cfg.max_recursion_depth - (depth + 1)) := by
          intro chunk
          exact ih gen cfg chunk instruction sp (depth + 1) (by omega)
        have hchunks := processChunksIdx_trace_le gen cfg instruction sp depth
          (callBound (cfg.max_recursion_depth - (depth + 1)))
          (callBound_pos _) hrec
          (enumIdx 0 (sampleChunks (splitText cfg.chunk_size cfg.chunk_overlap text)))
        have hlen : (enumIdx 0
            (sampleChunks (splitText cfg.chunk_size cfg.chunk_overlap text))).length ≤ 50 := by
          rw [enumIdx_length]
          exact sampleChunks_length_le _
        have hsynthLen : ((sortByFst (processChunksIdx gen cfg instruction sp depth
            (enumIdx 0 (sampleChunks (splitText cfg.chunk_size cfg.chunk_overlap text)))).1).map
            Prod.snd).length ≤ 50 := by
          rw [List.length_map, (sortByFst_perm _).length_eq, processChunksIdx_length,
            enumIdx_length]
          exact sampleChunks_length_le _
        have hsynth := synthesisStage_trace_le gen instruction sp
          ((sortByFst (processChunksIdx gen cfg instruction sp depth
            (enumIdx 0 (sampleChunks (splitText cfg.chunk_size cfg.chunk_overlap text)))).1).map
            Prod.snd) hsynthLen
        have hsplit : cfg.max_recursion_depth - depth =
            (cfg.max_recursion_depth - (depth + 1)) + 1 := by omega
        rw [hsplit]
        simp only [callBound, List.length_append]
        have hmul : (enumIdx 0
            (sampleChunks (splitText cfg.chunk_size cfg.chunk_overlap text))).length *
              callBound (cfg.max_recursion_depth - (depth + 1)) ≤
            50 * callBound (cfg.max_recursion_depth - (depth + 1)) :=
          Nat.mul_le_mul_right _ hlen
        omega

end RLM

namespace RLM

/-! ## The recursion-free regime and orchestrator routing -/

theorem enumIdx_snd_mem (n : Nat) (l : List α) : ∀ p ∈ enumIdx n l, p.2 ∈ l := by
  induction l generalizing n with
  | nil => simp [enumIdx]
  | cons a rest ih =>
    intro p hp
    rw [enumIdx, List.mem_cons] at hp
    rcases hp with hp | hp
    · simp [hp]
    · exact List.mem_cons_of_mem a (ih (n + 1) p hp)

theorem mapChunks_congr {f g : Nat × Text → (Nat × Text) × List GenCall}
    (l : List (Nat × Text)) (h : ∀ p ∈ l, f p = g p) : mapChunks f l = mapChunks g l := by
  induction l with
  | nil => rfl
  | cons p rest ih =>
    simp only [mapChunks]
    rw [h p (by simp), ih (fun q hq => h q (List.mem_cons_of_mem _ hq))]

theorem processChunksIdx_eq_direct (gen : Gen) (cfg : RLMConfig) (instruction : Text)
    (sp : Option Text) (depth : Nat) (l : List (Nat × Text))
    (h : ∀ p ∈ l, ¬ p.2.length / 4 > 20000) :
    processChunksIdx gen cfg instruction sp depth l = directChunks gen instruction sp l := by
  apply mapChunks_congr
  intro p hp
  unfold chunkOutcome
  rw [if_neg]
  intro hand
  exact h p hp hand.1

theorem processRecursive_eq_direct (gen : Gen) (cfg : RLMConfig) (text instruction : Text)
    (sp : Option Text) {depth : Nat} (hcs : cfg.chunk_size ≤ 80000)
    (hd : depth < cfg.max_recursion_depth) :
    processRecursive gen cfg text instruction sp depth =
      directSplitPath gen cfg text instruction sp := by
  have hsmall : ∀ p ∈ enumIdx 0 (sampleChunks (splitText cfg.chunk_size cfg.chunk_overlap text)),
      ¬ p.2.length / 4 > 20000 := by
    intro p hp
    have hmem := enumIdx_snd_mem 0 _ p hp
    have hmem2 := sampleChunks_subset _ hmem
    have hle := splitText_chunk_le cfg.chunk_size cfg.chunk_overlap text p.2 hmem2
    have : p.2.length / 4 ≤ 80000 / 4 := Nat.div_le_div_right (le_trans hle hcs)
    omega
  rw [processRecursive_split gen cfg text instruction sp hd,
    processChunksIdx_eq_direct gen cfg instruction sp depth _ hsmall]
  rfl

theorem processDocuments_single (gen : Gen) (cfg : RLMConfig) (docs : List Text)
    (instruction : Text) (sp : Option Text) (hne : docs ≠ [])
    (hsize : (joinSep docSeparator docs).length / 4 ≤ 100000) :
    processDocuments gen cfg docs instruction sp =
      processSinglePass gen (joinSep docSeparator docs) instruction sp := by
  unfold processDocuments
  rw [if_neg hne, if_pos hsize]

theorem processDocuments_recursive (gen : Gen) (cfg : RLMConfig) (docs : List Text)
    (instruction : Text) (sp : Option Text) (hne : docs ≠ [])
    (hsize : ¬ (joinSep docSeparator docs).length / 4 ≤ 100000) :
    processDocuments gen cfg docs instruction sp =
      processRecursive gen cfg (joinSep docSeparator docs) instruction sp 0 := by
  unfold processDocuments
  rw [if_neg hne, if_neg hsize]

end RLM

namespace RLM

/-! ## Claim theorems -/

/-- C1: for every non-empty list of documents whose concatenated text has an
estimated token count (characters divided by 4) below the single-pass ceiling
of 100000 estimated tokens, `processDocuments` invokes the generative
capability exactly once — the trace is one call — with the full concatenated
text embedded verbatim in the human message, and returns the adapter's result
unmodified.  (The caller-supplied system prompt must itself survive template
formatting, which the source does not escape; `none` always does.) -/
theorem claim_C1 (gen : Gen) (cfg : RLMConfig) (docs : List Text) (instruction : Text)
    (sp : Option Text) {sysMsg : Text} (hne : docs ≠ [])
    (hsys : fmtChars (resolveSystemPrompt sp) = some sysMsg)
    (hsize : (joinSep docSeparator docs).length / 4 < 100000) :
    processDocuments gen cfg docs instruction sp =
      (gen ⟨sysMsg, fullHuman instruction (joinSep docSeparator docs)⟩,
        [⟨sysMsg, fullHuman instruction (joinSep docSeparator docs)⟩]) := by
  rw [processDocuments_single gen cfg docs instruction sp hne (by omega)]
  exact processSinglePass_eq gen _ instruction sp hsys

/-- Witness for C1 at Scenario A: `documents=["short text"]`,
`instruction="summarize"`, no system prompt. -/
theorem claim_C1_witness :
    (["short text".data] : List Text) ≠ [] ∧
    (joinSep docSeparator ["short text".data]).length / 4 < 100000 ∧
    fmtChars (resolveSystemPrompt none) = some defaultSystemPrompt ∧
    processDocuments genOk defaultCfg ["short text".data] "summarize".data none =
      (genOk ⟨defaultSystemPrompt,
          fullHuman "summarize".data (joinSep docSeparator ["short text".data])⟩,
        [⟨defaultSystemPrompt,
          fullHuman "summarize".data (joinSep docSeparator ["short text".data])⟩]) :=
  ⟨by decide, by decide, fmt_resolve_none,
    claim_C1 genOk defaultCfg ["short text".data] "summarize".data none (by decide)
      fmt_resolve_none (by decide)⟩

/-- C9: for every single-pass call, the brace escaping applied to the text and
the instruction is exactly reversed by the template formatting — the adapter
receives the original text and instruction verbatim inside the prompt — and
the result handed back to the caller is the adapter's output unmodified, so
callers never observe escaped braces in the output. -/
theorem claim_C9 (gen : Gen) (text instruction : Text) (sp : Option Text) {sysMsg : Text}
    (hsys : fmtChars (resolveSystemPrompt sp) = some sysMsg) :
    fmtChars (escapeBraces text) = some text ∧
    fmtChars (escapeBraces instruction) = some instruction ∧
    fmtChars (humanTemplate instruction text) = some (fullHuman instruction text) ∧
    processSinglePass gen text instruction sp =
      (gen ⟨sysMsg, fullHuman instruction text⟩,
        [⟨sysMsg, fullHuman instruction text⟩]) :=
  ⟨fmtChars_escape text, fmtChars_escape instruction, fmt_humanTemplate instruction text,
    processSinglePass_eq gen text instruction sp hsys⟩

/-- Witness for C9 on brace-laden inputs: text `a{b}c`, instruction `i{}`. -/
theorem claim_C9_witness :
    fmtChars (resolveSystemPrompt none) = some defaultSystemPrompt ∧
    fmtChars (escapeBraces "a\x7bb\x7dc".data) = some "a\x7bb\x7dc".data ∧
    processSinglePass genOk "a\x7bb\x7dc".data "i\x7b\x7d".data none =
      (genOk ⟨defaultSystemPrompt, fullHuman "i\x7b\x7d".data "a\x7bb\x7dc".data⟩,
        [⟨defaultSystemPrompt, fullHuman "i\x7b\x7d".data "a\x7bb\x7dc".data⟩]) :=
  ⟨fmt_resolve_none,
    (claim_C9 genOk "a\x7bb\x7dc".data "i\x7b\x7d".data none fmt_resolve_none).1,
    (claim_C9 genOk "a\x7bb\x7dc".data "i\x7b\x7d".data none fmt_resolve_none).2.2.2⟩

/-- C6: whenever splitting yields more than the 50-chunk safety ceiling, the
down-sampling is the evenly spaced subset of stride `chunkCount / 50`: the
result has exactly 50 chunks, its `i`-th element is the original chunk at
index `i * (chunkCount / 50)` (relative order preserved), and the selection
is a pure function of the chunk list, so two runs on identical input select
the identical subset. -/
theorem claim_C6 (chunks : List Text) (h : chunks.length > 50) :
    (sampleChunks chunks).length = 50 ∧
    (∀ i < 50, (sampleChunks chunks)[i]? = chunks[i * (chunks.length / 50)]?) ∧
    (∀ chunks2 : List Text, chunks2 = chunks → sampleChunks chunks2 = sampleChunks chunks) :=
  ⟨sampleChunks_length_eq h, fun _ hi => sampleChunks_getElem? h hi,
    fun _ hc => by rw [hc]⟩

/-- Witness for C6 on 120 chunks: stride 2, element 7 is original chunk 14. -/
theorem claim_C6_witness :
    (List.replicate 120 "x".data : List Text).length > 50 ∧
    (sampleChunks (List.replicate 120 "x".data)).length = 50 ∧
    (sampleChunks (List.replicate 120 "x".data))[7]? =
      (List.replicate 120 "x".data)[7 * ((List.replicate 120 "x".data).length / 50)]? := by
  have h := claim_C6 (List.replicate 120 "x".data) (by simp)
  exact ⟨by simp, h.1, h.2.1 7 (by norm_num)⟩

end RLM

namespace RLM

theorem enumIdx_map_fst_getD (n : Nat) (l : List α) (j : Nat) (hj : j < l.length) :
    ((enumIdx n l).map Prod.fst).getD j 0 = n + j := by
  induction l generalizing n j with
  | nil => simp at hj
  | cons a rest ih =>
    cases j with
    | zero => simp [enumIdx]
    | succ j' =>
      have hj' : j' < rest.length := by simpa using hj
      simp only [enumIdx, List.map_cons, List.getD_cons_succ]
      rw [ih (n + 1) j' hj']
      omega

/-- C2: the Recursive Processor terminates in a bounded number of generative
calls — its call trace is bounded by `callBound` of the remaining depth
budget; depth increases by exactly 1 on the per-chunk recursive invocation;
and once `depth ≥ maxDepth` no splitting happens: the text is truncated to
`chunkSize × 10` characters, the truncation marker appended, and the result
processed in a single pass. -/
theorem claim_C2 (gen : Gen) (cfg : RLMConfig) (text instruction : Text) (sp : Option Text)
    (depth : Nat) :
    (depth ≥ cfg.max_recursion_depth →
      processRecursive gen cfg text instruction sp depth =
        processSinglePass gen (text.take (cfg.chunk_size * 10) ++ truncationMarker)
          instruction sp) ∧
    (∀ (i : Nat) (chunk : Text), chunk.length / 4 > 20000 →
      depth < cfg.max_recursion_depth →
      (chunkOutcome gen cfg instruction sp depth i chunk).2 =
        (processRecursive gen cfg chunk instruction sp (depth + 1)).2) ∧
    (processRecursive gen cfg text instruction sp depth).2.length ≤
      callBound (cfg.max_recursion_depth - depth) := by
  refine ⟨fun hd => processRecursive_exhausted gen cfg text instruction sp hd,
    fun i chunk h1 h2 => ?_,
    processRecursive_trace_bound (cfg.max_recursion_depth - depth) gen cfg text instruction
      sp depth le_rfl⟩
  unfold chunkOutcome
  rw [if_pos ⟨h1, h2⟩]
  rcases hres : processRecursive gen cfg chunk instruction sp (depth + 1) with ⟨res, tr⟩
  cases res with
  | ok r => rfl
  | error e => rfl

/-- Witness for C2: depth exhaustion at `depth = 2`, the `depth + 1` recursive
invocation on an oversized chunk, and the call bound at depth 0. -/
theorem claim_C2_witness :
    ((2 : Nat) ≥ tinyCfg.max_recursion_depth ∧
      processRecursive genOk tinyCfg text16 "sum".data none 2 =
        processSinglePass genOk (text16.take (tinyCfg.chunk_size * 10) ++ truncationMarker)
          "sum".data none) ∧
    ((List.replicate 80004 'a').length / 4 > 20000 ∧
      (0 : Nat) < tinyCfg.max_recursion_depth ∧
      (chunkOutcome genOk tinyCfg "sum".data none 0 5 (List.replicate 80004 'a')).2 =
        (processRecursive genOk tinyCfg (List.replicate 80004 'a') "sum".data none 1).2) ∧
    (processRecursive genOk tinyCfg text16 "sum".data none 0).2.length ≤
      callBound (tinyCfg.max_recursion_depth - 0) := by
  have h2 := claim_C2 genOk tinyCfg text16 "sum".data none 2
  have h0 := claim_C2 genOk tinyCfg text16 "sum".data none 0
  have hbig : (List.replicate 80004 'a').length / 4 > 20000 := by
    rw [List.length_replicate]
    norm_num
  exact ⟨⟨by decide, h2.1 (by decide)⟩,
    ⟨hbig, by decide, h0.2.1 5 (List.replicate 80004 'a') hbig (by decide)⟩, h0.2.2⟩

/-- C3: for any chunk list and any completion (arrival) order of the indexed
per-chunk results, the re-sort by chunk index restores exactly the in-order
result list, and its `j`-th element carries the label `[Chunk j+1]` — so the
joined output contains the labels in ascending order regardless of
concurrency. -/
theorem claim_C3 (gen : Gen) (cfg : RLMConfig) (instruction : Text) (sp : Option Text)
    (depth : Nat) (chunks : List Text) (arrival : List (Nat × Text))
    (hperm : arrival.Perm
      (processChunksIdx gen cfg instruction sp depth (enumIdx 0 chunks)).1) :
    (sortByFst arrival).map Prod.snd =
      (processChunksIdx gen cfg instruction sp depth (enumIdx 0 chunks)).1.map Prod.snd ∧
    ∀ j < chunks.length, ∃ suffix,
      ((sortByFst arrival).map Prod.snd)[j]? = some (chunkLabel j ++ suffix) := by
  have hfst := processChunksIdx_map_fst gen cfg instruction sp depth (enumIdx 0 chunks)
  have href : List.Pairwise (fun a b : Nat × Text => a.1 < b.1)
      (processChunksIdx gen cfg instruction sp depth (enumIdx 0 chunks)).1 := by
    have h1 : List.Pairwise (· < ·)
        ((processChunksIdx gen cfg instruction sp depth (enumIdx 0 chunks)).1.map
          Prod.fst) := by
      rw [hfst]
      exact List.pairwise_map.2 (enumIdx_fst_lt 0 chunks)
    exact List.pairwise_map.1 h1
  have heq := sortByFst_eq_of_perm hperm href
  refine ⟨by rw [heq], fun j hj => ?_⟩
  rw [heq]
  have hlen : j < (enumIdx 0 chunks).length := by rw [enumIdx_length]; exact hj
  obtain ⟨chunk, suffix, h1, h2⟩ :=
    processChunksIdx_getElem? gen cfg instruction sp depth (enumIdx 0 chunks) j hlen
  have hgd : ((enumIdx 0 chunks).map Prod.fst).getD j 0 = j := by
    have := enumIdx_map_fst_getD 0 chunks j hj
    simpa using this
  refine ⟨suffix, ?_⟩
  rw [List.getElem?_map, h2, hgd]
  rfl

/-- Witness for C3: two chunks, arrival order reversed; sorting restores the
in-order outputs and the second element carries `[Chunk 2]`. -/
theorem claim_C3_witness :
    ((sortByFst ((processChunksIdx genOk tinyCfg "sum".data none 0
          (enumIdx 0 ["aaaa".data, "bbbb".data])).1.reverse)).map Prod.snd =
        (processChunksIdx genOk tinyCfg "sum".data none 0
          (enumIdx 0 ["aaaa".data, "bbbb".data])).1.map Prod.snd) ∧
    (∃ suffix, ((sortByFst ((processChunksIdx genOk tinyCfg "sum".data none 0
          (enumIdx 0 ["aaaa".data, "bbbb".data])).1.reverse)).map Prod.snd)[1]? =
        some (chunkLabel 1 ++ suffix)) := by
  have h := claim_C3 genOk tinyCfg "sum".data none 0 ["aaaa".data, "bbbb".data] _
    (List.reverse_perm _)
  exact ⟨h.1, h.2 1 (by norm_num)⟩

end RLM

namespace RLM

/-- Counterexample for C5: `_process_recursive` performs no size check of its
own — a 10-character text (estimate 2 tokens, far below the 100000-token
ceiling) invoked at `depth = 0 < maxDepth` is nevertheless split (`tinyCfg`
chunking), producing 4 generative calls rather than a single pass. -/
theorem claim_C5_counterexample :
    (List.replicate 10 'a').length / 4 ≤ 100000 ∧
    (0 : Nat) < tinyCfg.max_recursion_depth ∧
    (processRecursive genOk tinyCfg (List.replicate 10 'a') "sum".data none 0).2.length = 4 ∧
    ¬ (processRecursive genOk tinyCfg (List.replicate 10 'a') "sum".data none 0).2.length
        = 1 := by
  decide

/-- C5 amended: the single-pass size check lives in the orchestrator
(`process_documents`), not in the Recursive Processor.  The Recursive
Processor falls through to a single pass only when the Chunker yields exactly
one chunk; and for every top-level input whose estimate is at most the
ceiling, `processDocuments` short-circuits to the Single-Pass Processor
without invoking the recursive path. -/
theorem claim_C5_amended (gen : Gen) (cfg : RLMConfig) (text instruction : Text)
    (sp : Option Text) (depth : Nat) (hd : depth < cfg.max_recursion_depth)
    (h1 : (sampleChunks (splitText cfg.chunk_size cfg.chunk_overlap text)).length = 1) :
    (processRecursive gen cfg text instruction sp depth =
      processSinglePass gen
        ((sampleChunks (splitText cfg.chunk_size cfg.chunk_overlap text)).headD [])
        instruction sp) ∧
    (∀ docs, docs ≠ [] → (joinSep docSeparator docs).length / 4 ≤ 100000 →
      processDocuments gen cfg docs instruction sp =
        processSinglePass gen (joinSep docSeparator docs) instruction sp) := by
  constructor
  · rw [processRecursive_split gen cfg text instruction sp hd, if_pos h1]
  · exact fun docs hne hs => processDocuments_single gen cfg docs instruction sp hne hs

/-- Witness for the amended C5. -/
theorem claim_C5_witness :
    ((0 : Nat) < tinyCfg.max_recursion_depth ∧
      (sampleChunks (splitText tinyCfg.chunk_size tinyCfg.chunk_overlap "ab".data)).length
          = 1 ∧
      processRecursive genOk tinyCfg "ab".data "sum".data none 0 =
        processSinglePass genOk
          ((sampleChunks (splitText tinyCfg.chunk_size tinyCfg.chunk_overlap
            "ab".data)).headD [])
          "sum".data none) ∧
    ((["short text".data] : List Text) ≠ [] ∧
      (joinSep docSeparator ["short text".data]).length / 4 ≤ 100000 ∧
      processDocuments genOk tinyCfg ["short text".data] "sum".data none =
        processSinglePass genOk (joinSep docSeparator ["short text".data])
          "sum".data none) := by
  have h := claim_C5_amended genOk tinyCfg "ab".data "sum".data none 0 (by decide) (by decide)
  exact ⟨⟨by decide, by decide, h.1⟩,
    ⟨by decide, by decide, h.2 ["short text".data] (by decide) (by decide)⟩⟩

/-- C10: with `chunkSize ≤ 80000` (the defaults included) every chunk the
splitter produces has at most `chunkSize` characters, so no chunk's estimate
exceeds the 20000-token inner threshold; consequently the per-chunk recursive
branch is never taken — the processor equals the recursion-free
`directSplitPath`, under which recursion depth never grows and the
depth-exhaustion truncation is unreachable from `processDocuments` whenever
`maxDepth ≥ 1`. -/
theorem claim_C10 (gen : Gen) (cfg : RLMConfig) (text instruction : Text) (sp : Option Text)
    (docs : List Text) :
    (∀ c ∈ splitText cfg.chunk_size cfg.chunk_overlap text, c.length ≤ cfg.chunk_size) ∧
    (cfg.chunk_size ≤ 80000 →
      ∀ c ∈ splitText cfg.chunk_size cfg.chunk_overlap text, ¬ c.length / 4 > 20000) ∧
    (cfg.chunk_size ≤ 80000 → ∀ depth < cfg.max_recursion_depth,
      processRecursive gen cfg text instruction sp depth =
        directSplitPath gen cfg text instruction sp) ∧
    (cfg.chunk_size ≤ 80000 → 1 ≤ cfg.max_recursion_depth → docs ≠ [] →
      processDocuments gen cfg docs instruction sp =
        if (joinSep docSeparator docs).length / 4 ≤ 100000 then
          processSinglePass gen (joinSep docSeparator docs) instruction sp
        else directSplitPath gen cfg (joinSep docSeparator docs) instruction sp) := by
  refine ⟨splitText_chunk_le _ _ _, fun hcs c hc => ?_,
    fun hcs depth hd => processRecursive_eq_direct gen cfg text instruction sp hcs hd,
    fun hcs hmd hne => ?_⟩
  · have hle := splitText_chunk_le cfg.chunk_size cfg.chunk_overlap text c hc
    have : c.length / 4 ≤ 80000 / 4 := Nat.div_le_div_right (le_trans hle hcs)
    omega
  · by_cases hsize : (joinSep docSeparator docs).length / 4 ≤ 100000
    · rw [if_pos hsize]
      exact processDocuments_single gen cfg docs instruction sp hne hsize
    · rw [if_neg hsize, processDocuments_recursive gen cfg docs instruction sp hne hsize]
      exact processRecursive_eq_direct gen cfg _ instruction sp hcs (by omega)

/-- Witness for C10 at the default configuration. -/
theorem claim_C10_witness :
    (defaultCfg.chunk_size ≤ 80000 ∧ (1 : Nat) ≤ defaultCfg.max_recursion_depth ∧
      (0 : Nat) < defaultCfg.max_recursion_depth ∧
      (["cd".data] : List Text) ≠ []) ∧
    (∀ c ∈ splitText defaultCfg.chunk_size defaultCfg.chunk_overlap "ab".data,
      c.length ≤ defaultCfg.chunk_size) ∧
    (processRecursive genOk defaultCfg "ab".data "sum".data none 0 =
      directSplitPath genOk defaultCfg "ab".data "sum".data none) ∧
    (processDocuments genOk defaultCfg ["cd".data] "sum".data none =
      if (joinSep docSeparator ["cd".data]).length / 4 ≤ 100000 then
        processSinglePass genOk (joinSep docSeparator ["cd".data]) "sum".data none
      else directSplitPath genOk defaultCfg (joinSep docSeparator ["cd".data])
        "sum".data none) := by
  have h := claim_C10 genOk defaultCfg "ab".data "sum".data none ["cd".data]
  exact ⟨⟨by decide, by decide, by decide, by decide⟩, h.1,
    h.2.2.1 (by decide) 0 (by decide), h.2.2.2 (by decide) (by decide) (by decide)⟩

end RLM

namespace RLM

/-- Counterexample for C4: with exactly one chunk's generative call raising
(`genC4` raises only on the one chunk of `text16` containing the marker),
the recursive path completes without raising — but the placeholder the
result carries for the failed chunk is `[Chunk 3]\n[Error: boom]` (source
line 214), and the claimed text `[Processing failed]` appears nowhere: the
branch emitting it (line 236) is unreachable, because `process_chunk`
catches every exception itself. -/
theorem claim_C4_counterexample :
    ((processRecursive genC4 tinyCfg text16 "sum".data none 0).2.filter
        (fun c => decide ('q' ∈ c.human))).length = 1 ∧
    (processRecursive genC4 tinyCfg text16 "sum".data none 0).1.toOption.isSome = true ∧
    ("[Chunk 3]\n[Error: boom]".data <:+:
      (processRecursive genC4 tinyCfg text16 "sum".data none 0).1.toOption.getD []) ∧
    ¬ ("[Processing failed]".data <:+:
      (processRecursive genC4 tinyCfg text16 "sum".data none 0).1.toOption.getD []) := by
  decide

/-- C4 amended (placeholder corrected to `[Chunk K]\n[Error: <cause>]`): a
chunk whose single-pass call raises is converted at the chunk boundary into
the `[Chunk K]\n[Error: <cause>]` placeholder; the chunk stage itself is
total, so only a batch or final synthesis failure can abort the request; an
oversized input routes from `processDocuments` into this recursive path. -/
theorem claim_C4_amended (gen : Gen) (cfg : RLMConfig) (instruction : Text)
    (sp : Option Text) (depth : Nat) (i : Nat) (chunk : Text) (e : Text)
    (tr : List GenCall) (hsmall : ¬ chunk.length / 4 > 20000)
    (hfail : processSinglePass gen chunk instruction sp = (Except.error e, tr)) :
    (chunkOutcome gen cfg instruction sp depth i chunk).1 = (i, chunkErrorText i e) ∧
    chunkErrorText i e = chunkLabel i ++ ("[Error: ".data ++ e ++ "]".data) ∧
    (∀ docs, docs ≠ [] → ¬ (joinSep docSeparator docs).length / 4 ≤ 100000 →
      processDocuments gen cfg docs instruction sp =
        processRecursive gen cfg (joinSep docSeparator docs) instruction sp 0) := by
  refine ⟨?_, chunkErrorText_eq i e, fun docs hne hs =>
    processDocuments_recursive gen cfg docs instruction sp hne hs⟩
  unfold chunkOutcome
  rw [if_neg (fun hand => hsmall hand.1), hfail]
  rfl

/-- Witness for the amended C4: the failing chunk of `text16`, plus the
orchestrator routing on a 400004-character document. -/
theorem claim_C4_witness :
    (chunkOutcome genC4 tinyCfg "sum".data none 0 2 "aqaa".data).1 =
        (2, chunkErrorText 2 "boom".data) ∧
    chunkErrorText 2 "boom".data =
        chunkLabel 2 ++ ("[Error: ".data ++ "boom".data ++ "]".data) ∧
    processDocuments genC4 tinyCfg [List.replicate 400004 'a'] "sum".data none =
        processRecursive genC4 tinyCfg (List.replicate 400004 'a') "sum".data none 0 := by
  have hfail : processSinglePass genC4 "aqaa".data "sum".data none =
      (Except.error "boom".data,
        [⟨defaultSystemPrompt, fullHuman "sum".data "aqaa".data⟩]) := by decide
  have h := claim_C4_amended genC4 tinyCfg "sum".data none 0 2 "aqaa".data "boom".data
    _ (by decide) hfail
  have hj : joinSep docSeparator [List.replicate 400004 'a'] =
      List.replicate 400004 'a' := rfl
  have hroute := h.2.2 [List.replicate 400004 'a'] (List.cons_ne_nil _ _)
    (by rw [hj, List.length_replicate]; norm_num)
  rw [hj] at hroute
  exact ⟨h.1, h.2.1, hroute⟩

/-- Counterexample for C7: when 120 chunks are generated, the 50-chunk
safety limit (source line 154) down-samples them before batch synthesis ever
runs, so the batch stage sees 50 chunk results and produces 5 batch
summaries, not the 12 the claim asserts. -/
theorem claim_C7_counterexample :
    (splitText tinyCfg.chunk_size tinyCfg.chunk_overlap text361).length = 120 ∧
    (chunkResultsOf genOk tinyCfg text361 "sum".data none 0).length = 50 ∧
    ((synthesizeInBatches genOk "sum".data none
        (chunkResultsOf genOk tinyCfg text361 "sum".data none 0) 1).1.toOption.getD
        []).length = 5 ∧
    ¬ ((synthesizeInBatches genOk "sum".data none
        (chunkResultsOf genOk tinyCfg text361 "sum".data none 0) 1).1.toOption.getD
        []).length = 12 := by
  decide

/-- C7 amended: 120 generated chunks are first down-sampled to the 50-chunk
safety ceiling; batch synthesis then runs on contiguous ordered groups of 10
of the 50 chunk results, producing 5 batch summaries (the first labelled
`[Batch 1]`), combined into exactly one final synthesis call — 50 + 5 + 1 =
56 generative calls in total; batch synthesis applied to 120 results
directly would indeed produce 12 summaries. -/
theorem claim_C7_amended :
    (splitText tinyCfg.chunk_size tinyCfg.chunk_overlap text361).length = 120 ∧
    (sampleChunks (splitText tinyCfg.chunk_size tinyCfg.chunk_overlap text361)).length
        = 50 ∧
    ((synthesizeInBatches genOk "sum".data none
        (chunkResultsOf genOk tinyCfg text361 "sum".data none 0) 1).1.toOption.getD
        []).length = 5 ∧
    List.isPrefixOf ("[Batch 1]\n".data)
      ((((synthesizeInBatches genOk "sum".data none
        (chunkResultsOf genOk tinyCfg text361 "sum".data none 0) 1).1.toOption.getD
        [])[0]?).getD []) = true ∧
    (processRecursive genOk tinyCfg text361 "sum".data none 0).2.length = 56 ∧
    ((synthesizeInBatches genOk "sum".data none (List.replicate 120 "r".data)
        1).1.toOption.getD []).length = 12 := by
  decide

/-- Counterexample for C8: the constructor default is `chunk_size = 15000`
(source line 23), not the 20000 the claim states; 20000 is the value the
production caller passes explicitly. -/
theorem claim_C8_counterexample :
    defaultCfg.chunk_size = 15000 ∧ ¬ defaultCfg.chunk_size = 20000 ∧
    defaultCfg.chunk_overlap = 500 := by
  decide

/-- C8 amended: in the split state the Recursive Processor invokes the
Chunker with the processor's configured `chunk_size` and `chunk_overlap`;
the constructor defaults are `chunk_size = 15000`, `chunk_overlap = 500`,
and `chunkSize = 20000`, `chunkOverlap = 500` is the configuration the
repository's caller `src/agents/analyst.py` passes explicitly. -/
theorem claim_C8_amended (gen : Gen) (cfg : RLMConfig) (text instruction : Text)
    (sp : Option Text) (depth : Nat) (hd : depth < cfg.max_recursion_depth) :
    (processRecursive gen cfg text instruction sp depth =
      (if (sampleChunks (splitText cfg.chunk_size cfg.chunk_overlap text)).length = 1 then
        processSinglePass gen
          ((sampleChunks (splitText cfg.chunk_size cfg.chunk_overlap text)).headD [])
          instruction sp
      else
        ((synthesisStage gen instruction sp
            (chunkResultsOf gen cfg text instruction sp depth)).1,
          (processChunksIdx gen cfg instruction sp depth
              (enumIdx 0 (sampleChunks (splitText cfg.chunk_size cfg.chunk_overlap
                text)))).2 ++
            (synthesisStage gen instruction sp
              (chunkResultsOf gen cfg text instruction sp depth)).2))) ∧
    defaultCfg.chunk_size = 15000 ∧ defaultCfg.chunk_overlap = 500 ∧
    analystCfg.chunk_size = 20000 ∧ analystCfg.chunk_overlap = 500 := by
  refine ⟨?_, rfl, rfl, rfl, rfl⟩
  rw [processRecursive_split gen cfg text instruction sp hd]
  rfl

/-- Witness for the amended C8 at the default configuration. -/
theorem claim_C8_witness :
    (0 : Nat) < defaultCfg.max_recursion_depth ∧
    defaultCfg.chunk_size = 15000 ∧ analystCfg.chunk_size = 20000 ∧
    processRecursive genOk defaultCfg "ab".data "sum".data none 0 =
      (if (sampleChunks (splitText defaultCfg.chunk_size defaultCfg.chunk_overlap
          "ab".data)).length = 1 then
        processSinglePass genOk
          ((sampleChunks (splitText defaultCfg.chunk_size defaultCfg.chunk_overlap
            "ab".data)).headD [])
          "sum".data none
      else
        ((synthesisStage genOk "sum".data none
            (chunkResultsOf genOk defaultCfg "ab".data "sum".data none 0)).1,
          (processChunksIdx genOk defaultCfg "sum".data none 0
              (enumIdx 0 (sampleChunks (splitText defaultCfg.chunk_size
                defaultCfg.chunk_overlap "ab".data)))).2 ++
            (synthesisStage genOk "sum".data none
              (chunkResultsOf genOk defaultCfg "ab".data "sum".data none 0)).2)) := by
  have h := claim_C8_amended genOk defaultCfg "ab".data "sum".data none 0 (by decide)
  exact ⟨by decide, h.2.1, h.2.2.2.1, h.1⟩

end RLM
